import Mathlib

/-!
# A shallow embedding of the `morse_game` core in Lean 4

This file embeds, definition by definition, the core logic of the
`morse_game` repository (a Morse-code typing game):

* `src/core/morse_decoder.py`   — the Morse table and the encode/decode codec,
* `src/core/config.py`          — timing constants and difficulty settings,
* `src/core/game_state.py`      — the session data and the word timer,
* `src/core/game_controller.py` — key classification, input checking,
                                  word completion and timeout handling,
* `src/data/high_scores.py`     — leaderboard insertion and rank queries,
* `src/hardware/megohmmeter_control.py` — the analog-needle controller.

Python floats are modelled as exact rationals (`ℚ`), Python strings as
`String`, Python dicts keyed by letter index as association lists, and
operations that can raise an `IndexError` return `Option`.  The theorems
at the bottom settle the specification claims against these definitions.
-/

namespace MorseGame

/-! ## MorseCodec (`src/core/morse_decoder.py`) -/

/-- The table `MORSE_CODE_DICT` from `src/core/morse_decoder.py`, lines 7-21, in source
order.  Note that one key, `", "`, is a two-character string, exactly as in
the source. -/
def MORSE_CODE_DICT : List (String × String) :=
  [ ("A", ".-"), ("B", "-..."),
    ("C", "-.-."), ("D", "-.."), ("E", "."),
    ("F", "..-."), ("G", "--."), ("H", "...."),
    ("I", ".."), ("J", ".---"), ("K", "-.-"),
    ("L", ".-.."), ("M", "--"), ("N", "-."),
    ("O", "---"), ("P", ".--."), ("Q", "--.-"),
    ("R", ".-."), ("S", "..."), ("T", "-"),
    ("U", "..-"), ("V", "...-"), ("W", ".--"),
    ("X", "-..-"), ("Y", "-.--"), ("Z", "--.."),
    ("1", ".----"), ("2", "..---"), ("3", "...--"),
    ("4", "....-"), ("5", "....."), ("6", "-...."),
    ("7", "--..."), ("8", "---.."), ("9", "----."),
    ("0", "-----"), (", ", "--..--"), (".", ".-.-.-"),
    ("?", "..--.."), ("/", "-..-."), ("-", "-....-"),
    ("(", "-.--."), (")", "-.--.-") ]

/-- The `REVERSE_MORSE_CODE_DICT` lookup (line 24): a Python dict comprehension
`{v: k for k, v in d.items()}`, where a later duplicate value would override
an earlier one; looking up in the reversed pair list models that.  Returns
`""` when absent, as `dict.get(code, '')` does on line 84. -/
def reverseMorseLookup (code : String) : String :=
  match (MORSE_CODE_DICT.map (fun p => (p.2, p.1))).reverse.lookup code with
  | some ch => ch
  | none => ""

/-- Embeds `MorseDecoder._validate_morse_char` (lines 36-48): nonempty and made only
of dots and dashes. -/
def validateMorseChar (morse_char : String) : Bool :=
  !morse_char.isEmpty && morse_char.data.all (fun c => c = '.' || c = '-')

/-- Embeds `MorseDecoder.decode` (lines 64-92): empty or invalid input decodes to
`""`; otherwise the reverse table is consulted, `""` when unknown. -/
def decode (code : String) : String :=
  if code = "" then ""
  else if !validateMorseChar code then ""
  else reverseMorseLookup code

/-- Per-character step of `MorseDecoder.encode` (lines 151-158): a table key
gets its code, a space becomes `"/"`, anything else is skipped. -/
def encodeChar (c : Char) : List String :=
  match MORSE_CODE_DICT.lookup c.toString with
  | some code => [code]
  | none => if c = ' ' then ["/"] else []

/-- The Python `str.upper()` operation on the character list of a string.  (Equivalent to
`String.toUpper` for the ASCII data of this program; stated on `List.map` so
that concrete instances reduce.) -/
def pyUpper (s : String) : String := ⟨s.data.map Char.toUpper⟩

/-- Embeds `MorseDecoder.encode` (lines 140-162): upper-cases the text, encodes each
character, and joins the pieces with single spaces. -/
def encode (text : String) : String :=
  String.intercalate " " ((pyUpper text).data.flatMap encodeChar)

/-! ## Timing constants (`src/core/config.py`, lines 23-37) -/

def DIT : ℚ := 16/100
def DOT_DURATION : ℚ := DIT
def DASH_DURATION : ℚ := 3 * DIT
def LETTER_GAP : ℚ := 2 * DASH_DURATION
def DEBOUNCE_TIME : ℚ := 0
def WORD_TIME_LIMIT : ℚ := 10
def TIME_PER_LETTER : ℚ := 3
def O_LETTER_BONUS : ℚ := 2

/-! ## Difficulty settings (`src/core/config.py`, lines 40-55)

The two Python dicts carry different key sets; every key that a dict omits
is only ever read through `dict.get(key, 0)` in the sources, so the omitted
keys are stored here as that default `0`. -/

structure DifficultySettings where
  word_time_limit : ℚ
  time_per_letter : ℚ
  o_letter_bonus : ℚ
  game_duration : ℚ
  time_bonus_every_words : Nat
  time_bonus_amount : ℚ
  streak_bonus_every_words : Nat
  streak_bonus_amount : ℚ
  deriving Repr, DecidableEq

/-- The dict `DIFFICULTY_SETTINGS['easy']` (config.py lines 41-46). -/
def easySettings : DifficultySettings :=
  { word_time_limit := 15, time_per_letter := 5/2, o_letter_bonus := 3/2,
    game_duration := 120, time_bonus_every_words := 0, time_bonus_amount := 0,
    streak_bonus_every_words := 0, streak_bonus_amount := 0 }

/-- The dict `DIFFICULTY_SETTINGS['hard']` (config.py lines 47-54). -/
def hardSettings : DifficultySettings :=
  { word_time_limit := 8, time_per_letter := 2, o_letter_bonus := 1,
    game_duration := 90, time_bonus_every_words := 3, time_bonus_amount := 15,
    streak_bonus_every_words := 0, streak_bonus_amount := 0 }

/-- Embeds `DIFFICULTY_SETTINGS.get(difficulty, DIFFICULTY_SETTINGS['easy'])`
(`GameStateManager.get_difficulty_settings`, game_state.py lines 248-250). -/
def getDifficultySettings (difficulty : String) : DifficultySettings :=
  if difficulty = "easy" then easySettings
  else if difficulty = "hard" then hardSettings
  else easySettings

/-! ## Python dict / list helpers

`letter_errors` is a Python dict from letter index to error count; it is
modelled as an association list with insert-or-replace, membership and
delete mirroring `d[k] = v`, `k in d` and `del d[k]`.  A Python list
assignment `l[i] = v` raises `IndexError` out of range, so it is modelled
by an `Option`-returning update. -/

def dictGet (d : List (Nat × Nat)) (k : Nat) : Nat :=
  (d.lookup k).getD 0

def dictSet : List (Nat × Nat) → Nat → Nat → List (Nat × Nat)
  | [], k, v => [(k, v)]
  | (k', v') :: rest, k, v =>
    if k' = k then (k, v) :: rest else (k', v') :: dictSet rest k v

def dictContains (d : List (Nat × Nat)) (k : Nat) : Bool :=
  d.any (fun p => p.1 == k)

def dictDel : List (Nat × Nat) → Nat → List (Nat × Nat)
  | [], _ => []
  | (k', v') :: rest, k =>
    if k' = k then rest else (k', v') :: dictDel rest k

/-- Sum of all values of the dict (used to compare the per-letter error
counts with the session total). -/
def dictValuesSum (d : List (Nat × Nat)) : Nat :=
  (d.map Prod.snd).sum

/-- Embeds `l[i] = v` on a Python list: `some` of the updated list when `i` is in
range, `none` (an `IndexError`) otherwise. -/
def listSet? {α : Type} (l : List α) (i : Nat) (a : α) : Option (List α) :=
  if i < l.length then some (l.set i a) else none

/-! ## Game state (`src/core/game_state.py`) -/

/-- The `GameState` enumeration (game_state.py lines 10-19). -/
inductive GameState where
  | mainMenu
  | numberedMenu
  | difficultySelect
  | nicknameInput
  | playing
  | practice
  | gameOver
  | highScores
  deriving Repr, DecidableEq

/-- Embeds `GameData` (game_state.py lines 21-47), restricted to the fields the
core logic reads or writes.  `streak_count` does not appear in
`game_state.py`; it is referenced by `game_controller.py` (lines 293-322)
and is modelled from the spec (§3 SessionState's `streakCount`).
`bonus_time_received`, `bonus_amount` and `practice_next_letter_time` are
the attributes `_word_completed` / practice mode create dynamically. -/
structure GameData where
  nickname : String := ""
  difficulty : String := "easy"
  current_word : String := ""
  words_completed : Nat := 0
  score : Nat := 0
  time_remaining : ℚ := 120
  game_start_time : Option ℚ := none
  letter_colors : List String := []
  current_letter_index : Nat := 0
  letter_errors : List (Nat × Nat) := []
  total_errors : Nat := 0
  word_start_time : Option ℚ := none
  word_time_limit : ℚ := WORD_TIME_LIMIT
  streak_count : Nat := 0
  bonus_time_received : Option ℚ := none
  bonus_amount : ℚ := 0
  error_time : Option ℚ := none
  practice_letter : String := ""
  practice_letter_color : String := "white"
  practice_completed : Nat := 0
  practice_errors : Nat := 0
  practice_next_letter_time : Option ℚ := none
  deriving Repr, DecidableEq

/-- The mutable state split between `GameStateManager` and `GameController`
that the core operations touch: the current `GameState`, the session's
`GameData`, and the controller's pending Morse sequence with its timing
(game_controller.py lines 19-26; megohmmeter handles are modelled
separately by `ActState`). -/
structure ControllerState where
  current_state : GameState := GameState.mainMenu
  game_data : GameData := {}
  current_sequence : String := ""
  last_element_time : Option ℚ := none
  last_timeout_check : ℚ := 0
  cursor_visible : Bool := true
  cursor_timer : ℚ := 0
  deriving Repr, DecidableEq

/-- Embeds `GameStateManager.add_error` (game_state.py lines 235-237). -/
def addError (g : GameData) : GameData :=
  { g with total_errors := g.total_errors + 1 }

/-- Modelled from the spec: `GameStateManager.increment_streak` is called at
game_controller.py line 293 but is defined nowhere under `src/`; §4.3
step 3 says a full-word match shall "increment streak". -/
def incrementStreak (g : GameData) : GameData :=
  { g with streak_count := g.streak_count + 1 }

/-- Modelled from the spec: `GameStateManager.reset_streak` is called at
game_controller.py line 337 but is defined nowhere under `src/`; §4.3
step 4 says on word-time expiry "streak resets to zero". -/
def resetStreak (g : GameData) : GameData :=
  { g with streak_count := 0 }

/-- Modelled from the spec: `GameStateManager.start_new_word` is called at
game_controller.py line 350 but is defined nowhere under `src/`; the call
site comment says it resets per-word error tracking, which `_get_next_word`
has already done (`letter_errors = {}`), so it is modelled as having no
further effect on the embedded fields. -/
def startNewWord (g : GameData) : GameData := g

/-- Embeds `word.upper().count('O')` (game_state.py line 216). -/
def countO (word : String) : Nat :=
  (pyUpper word).data.count 'O'

/-- Embeds `GameStateManager.start_word_timer` (game_state.py lines 207-220):
records the word start time and computes the dynamic per-word limit
`base + len(word) * per_letter + count(word,'O') * o_bonus` from the
difficulty settings; an empty word falls back to `WORD_TIME_LIMIT`. -/
def startWordTimer (now : ℚ) (word : String) (g : GameData) : GameData :=
  let g' := { g with word_start_time := some now }
  if word ≠ "" then
    let settings := getDifficultySettings g'.difficulty
    let base_time := settings.word_time_limit
    let letter_time := (word.length : ℚ) * settings.time_per_letter
    let o_bonus := (countO word : ℚ) * settings.o_letter_bonus
    { g' with word_time_limit := base_time + letter_time + o_bonus }
  else
    { g' with word_time_limit := WORD_TIME_LIMIT }

/-- Embeds `GameStateManager.is_word_time_expired` (game_state.py lines 222-226). -/
def isWordTimeExpired (now : ℚ) (g : GameData) : Bool :=
  match g.word_start_time with
  | none => false
  | some t0 => decide (now - t0 > g.word_time_limit)

/-! ## Game controller (`src/core/game_controller.py`)

The controller consults two external collaborators that are out of the
embedding's scope: the random `WordGenerator` (whose next word is passed in
as an explicit `nextWord` argument) and the megohmmeter (whose commands are
modelled separately on `ActState`; they do not touch the game data).
A `none` result models a Python exception escaping the operation. -/

/-- Embeds `GameController.on_key_release` (game_controller.py lines 131-168):
debounce-filter the release, classify it against the midpoint of
`DOT_DURATION` and `DASH_DURATION`, append the symbol, and stamp the
symbol time. -/
def onKeyRelease (now press_duration : ℚ) (s : ControllerState) : ControllerState :=
  if s.current_state ≠ GameState.playing then s
  else if press_duration < DEBOUNCE_TIME then s
  else
    let threshold := (DOT_DURATION + DASH_DURATION) / 2
    let s' :=
      if press_duration < threshold then
        { s with current_sequence := s.current_sequence ++ "." }
      else
        { s with current_sequence := s.current_sequence ++ "-" }
    { s' with last_element_time := some now, cursor_visible := true,
              cursor_timer := now }

/-- Embeds `GameController._get_next_word` (game_controller.py lines 340-353), with
the word the random generator would hand back passed in as `nextWord`. -/
def getNextWord (now : ℚ) (nextWord : String) (s : ControllerState) : ControllerState :=
  let g := { s.game_data with
             current_word := nextWord,
             letter_colors := List.replicate nextWord.length "white",
             current_letter_index := 0,
             letter_errors := ([] : List (Nat × Nat)) }
  let g := startNewWord g
  let g := startWordTimer now nextWord g
  { s with game_data := g, current_sequence := "" }

/-- The body of `GameController._word_completed` (game_controller.py lines
290-332) with the difficulty settings abstracted, exactly as the source
reads them from `get_difficulty_settings()` at line 298: count the word,
increment the streak, apply the difficulty-specific bonus branch pair, and
fetch the next word. -/
def wordCompletedWith (settings : DifficultySettings) (now : ℚ) (nextWord : String)
    (s : ControllerState) : ControllerState :=
  let g := { s.game_data with words_completed := s.game_data.words_completed + 1 }
  let g := incrementStreak g
  let g :=
    if g.difficulty = "hard" then
      let bonus_every : Nat := 3
      let amt := settings.time_bonus_amount
      if amt > 0 ∧ g.streak_count > 0 ∧ g.streak_count % bonus_every = 0 then
        { g with time_remaining := g.time_remaining + amt,
                 bonus_time_received := some now, bonus_amount := amt }
      else g
    else if g.difficulty = "easy" then
      let streak_every := settings.streak_bonus_every_words
      let streak_amt := settings.streak_bonus_amount
      if streak_every > 0 ∧ streak_amt > 0 ∧ g.streak_count = streak_every then
        { g with time_remaining := g.time_remaining + streak_amt,
                 bonus_time_received := some now, bonus_amount := streak_amt }
      else g
    else g
  getNextWord now nextWord { s with game_data := g }

/-- Embeds `GameController._word_completed` (game_controller.py lines 290-332),
with the settings taken from the session's difficulty as at line 298. -/
def wordCompleted (now : ℚ) (nextWord : String) (s : ControllerState) : ControllerState :=
  wordCompletedWith (getDifficultySettings s.game_data.difficulty) now nextWord s

/-- Embeds `GameController._word_time_expired` (game_controller.py lines 334-338). -/
def wordTimeExpired (now : ℚ) (nextWord : String) (s : ControllerState) : ControllerState :=
  getNextWord now nextWord { s with game_data := resetStreak s.game_data }

/-- Embeds `GameController.check_morse_input` (game_controller.py lines 170-221),
returning the updated state paired with the number of decode attempts the
call performed (the source calls `self.decoder.decode` at line 176 exactly
when the guards at line 172 pass).  `none` is an uncaught `IndexError` from
`letter_colors[current_index] = ...`. -/
def checkMorseInput (now : ℚ) (nextWord : String) (s : ControllerState) :
    Option (ControllerState × Nat) :=
  if s.current_sequence = "" ∨ s.current_state ≠ GameState.playing then some (s, 0)
  else
    let decoded := decode s.current_sequence
    if decoded = "" then
      some ({ s with current_sequence := "" }, 1)
    else
      let current_word := s.game_data.current_word
      let current_index := s.game_data.current_letter_index
      let letter_colors := s.game_data.letter_colors
      if current_index ≥ current_word.length then some (s, 1)
      else
        let target_char := current_word.data.getD current_index ' '
        if decoded = target_char.toString then
          match listSet? letter_colors current_index "green" with
          | none => none
          | some colors =>
            let s' := { s with game_data :=
              { s.game_data with letter_colors := colors,
                                 current_letter_index := current_index + 1 } }
            let s' :=
              if s'.game_data.current_letter_index ≥ current_word.length then
                wordCompleted now nextWord s'
              else s'
            some ({ s' with current_sequence := "" }, 1)
        else
          let error_count := dictGet s.game_data.letter_errors current_index + 1
          let g := { s.game_data with
                     letter_errors := dictSet s.game_data.letter_errors current_index error_count }
          let g := addError g
          match listSet? g.letter_colors current_index "red" with
          | none => none
          | some colors =>
            let g := { g with letter_colors := colors, error_time := some now }
            some ({ s with game_data := g, current_sequence := "" }, 1)

/-- Embeds `GameController.clear_current_input` (game_controller.py lines 223-235):
during play, drop the pending sequence, and when the current letter is red,
whiten it and delete its per-letter error entry. -/
def clearCurrentInput (s : ControllerState) : ControllerState :=
  if s.current_state ≠ GameState.playing then s
  else
    let s' := { s with current_sequence := "" }
    let current_index := s'.game_data.current_letter_index
    let letter_colors := s'.game_data.letter_colors
    if current_index < letter_colors.length ∧
        letter_colors.getD current_index "" = "red" then
      let g := { s'.game_data with letter_colors := letter_colors.set current_index "white" }
      let g :=
        if dictContains g.letter_errors current_index then
          { g with letter_errors := dictDel g.letter_errors current_index }
        else g
      { s' with game_data := g }
    else s'

/-- Embeds `GameController.end_game` (game_controller.py lines 355-376): the final
score is the words completed, the record goes to the external high-score
collaborator (modelled separately by `addScore`), and the state machine
moves to `GAME_OVER`. -/
def endGame (s : ControllerState) : ControllerState :=
  let g := { s.game_data with score := s.game_data.words_completed }
  { s with game_data := g, current_state := GameState.gameOver }

/-- Embeds `GameController.check_practice_morse_input` (game_controller.py lines
453-485), with the decode-attempt count as in `checkMorseInput`. -/
def checkPracticeMorseInput (now : ℚ) (s : ControllerState) : ControllerState × Nat :=
  if s.current_sequence = "" ∨ s.current_state ≠ GameState.practice then (s, 0)
  else
    let decoded := decode s.current_sequence
    if decoded = "" then
      ({ s with current_sequence := "" }, 1)
    else
      let target := s.game_data.practice_letter
      let g :=
        if decoded = target then
          { s.game_data with practice_letter_color := "green",
                             practice_completed := s.game_data.practice_completed + 1,
                             practice_next_letter_time := some (now + 3/4) }
        else
          { s.game_data with practice_letter_color := "red",
                             practice_errors := s.game_data.practice_errors + 1,
                             error_time := some now }
      ({ s with game_data := g, current_sequence := "" }, 1)

/-- Embeds `GameController._generate_practice_letter` (game_controller.py lines
398-403), with the random uppercase letter passed in as `newLetter`. -/
def generatePracticeLetter (newLetter : String) (g : GameData) : GameData :=
  { g with practice_letter := newLetter, practice_letter_color := "white" }

/-- Embeds `GameController.check_practice_timeouts` (game_controller.py lines
495-516): a letter-gap silence triggers one practice decode attempt, and a
due `practice_next_letter_time` swaps in the next random letter. -/
def checkPracticeTimeouts (now : ℚ) (newLetter : String) (s : ControllerState) :
    ControllerState × Nat :=
  if s.current_state ≠ GameState.practice then (s, 0)
  else
    let s' := { s with last_timeout_check := now }
    let step :=
      match s'.last_element_time with
      | some t0 =>
        if s'.current_sequence ≠ "" ∧ now - t0 ≥ LETTER_GAP then
          let r := checkPracticeMorseInput now s'
          ({ r.1 with last_element_time := some now }, r.2)
        else (s', 0)
      | none => (s', 0)
    let s'' := step.1
    let s'' :=
      match s''.game_data.practice_next_letter_time with
      | some t =>
        if now ≥ t then
          { s'' with game_data :=
            { generatePracticeLetter newLetter s''.game_data with
              practice_next_letter_time := none } }
        else s''
      | none => s''
    (s'', step.2)

/-- The word-timer and session-clock tail of `check_timeouts`
(game_controller.py lines 263-273): on word-timer expiry the word is
abandoned; then, when a game is running, `time_remaining` shrinks by the
tick delta (clamped at 0) and the game ends when it reaches 0. -/
def serviceClock (now delta : ℚ) (nextWord : String) (s : ControllerState) :
    ControllerState :=
  let s2 := if isWordTimeExpired now s.game_data then wordTimeExpired now nextWord s else s
  match s2.game_data.game_start_time with
  | some _ =>
    let g := { s2.game_data with
               time_remaining := max 0 (s2.game_data.time_remaining - delta) }
    let s2' := { s2 with game_data := g }
    if s2'.game_data.time_remaining ≤ 0 then endGame s2' else s2'
  | none => s2

/-- Embeds `GameController.check_timeouts` (game_controller.py lines 237-273),
returning the state paired with the total number of decode attempts: the
practice branch dispatches to `checkPracticeTimeouts`; in `PLAYING`, a
letter-gap silence triggers one decode of the pending sequence, then the
word timer and the session clock are serviced (`serviceClock`).
(`_ensure_needle_at_zero` only touches the megohmmeter and is not part of
the game state.) -/
def checkTimeouts (now : ℚ) (nextWord newLetter : String) (s : ControllerState) :
    Option (ControllerState × Nat) :=
  if s.current_state = GameState.practice then
    some (checkPracticeTimeouts now newLetter s)
  else if s.current_state ≠ GameState.playing then some (s, 0)
  else
    let delta := now - s.last_timeout_check
    let s0 := { s with last_timeout_check := now }
    let step : Option (ControllerState × Nat) :=
      match s0.last_element_time with
      | some t0 =>
        if s0.current_sequence ≠ "" ∧ now - t0 ≥ LETTER_GAP then
          match checkMorseInput now nextWord s0 with
          | none => none
          | some (s1, n) => some ({ s1 with last_element_time := some now }, n)
        else some (s0, 0)
      | none => some (s0, 0)
    match step with
    | none => none
    | some (s1, n) => some (serviceClock now delta nextWord s1, n)

/-! ## High scores (`src/data/high_scores.py`)

A score record, with the two datetime fields omitted (neither the sort key
nor the rank query reads them).  File I/O (`load_scores`/`save_scores`) is
out of scope; the embedding operates on the in-memory per-difficulty
lists. -/

structure ScoreEntry where
  nickname : String
  score : Nat
  words_completed : Nat
  time_taken : ℚ
  errors : Nat
  difficulty : String
  deriving Repr, DecidableEq

/-- The two per-difficulty score lists `self.scores = {'easy': [], 'hard': []}`
(high_scores.py line 19). -/
structure HighScores where
  easy : List ScoreEntry := []
  hard : List ScoreEntry := []
  deriving Repr, DecidableEq

/-- The sort key of `add_score` (high_scores.py line 73):
`(x['score'], -x['words_completed'], -x.get('errors', 0), x['time_taken'])`. -/
def sortKey (e : ScoreEntry) : Int × Int × Int × ℚ :=
  ((e.score : Int), -(e.words_completed : Int), -(e.errors : Int), e.time_taken)

/-- Strict lexicographic order on the 4-component sort key, as Python
compares tuples. -/
def keyLt (a b : Int × Int × Int × ℚ) : Prop :=
  a.1 < b.1 ∨ (a.1 = b.1 ∧
    (a.2.1 < b.2.1 ∨ (a.2.1 = b.2.1 ∧
      (a.2.2.1 < b.2.2.1 ∨ (a.2.2.1 = b.2.2.1 ∧ a.2.2.2 < b.2.2.2)))))

instance (a b : Int × Int × Int × ℚ) : Decidable (keyLt a b) := by
  unfold keyLt; infer_instance

/-- One step of a stable descending sort: insert `x` before the first
element whose key is strictly below that of `x`, so that elements with equal keys
keep their original relative order — the behaviour of Python's stable
`list.sort(key=..., reverse=True)`. -/
def insertDesc (x : ScoreEntry) : List ScoreEntry → List ScoreEntry
  | [] => [x]
  | y :: ys => if keyLt (sortKey y) (sortKey x) then x :: y :: ys else y :: insertDesc x ys

/-- Embeds `list.sort(key=sortKey, reverse=True)` (high_scores.py line 73): a
stable sort placing larger keys first. -/
def sortScoresDesc (l : List ScoreEntry) : List ScoreEntry :=
  l.foldl (fun acc x => insertDesc x acc) []

/-- Embeds `HighScoreManager.add_score` (high_scores.py lines 55-77): normalise an
unknown difficulty to `easy`, append the record, and re-sort that
difficulty's list by the key above with `reverse=True`. -/
def addScore (nickname : String) (score words_completed : Nat) (time_taken : ℚ)
    (errors : Nat) (difficulty : String) (hs : HighScores) : HighScores :=
  let d := if difficulty = "easy" ∨ difficulty = "hard" then difficulty else "easy"
  let entry : ScoreEntry :=
    { nickname := nickname, score := score, words_completed := words_completed,
      time_taken := time_taken, errors := errors, difficulty := d }
  if d = "hard" then
    { hs with hard := sortScoresDesc (hs.hard ++ [entry]) }
  else
    { hs with easy := sortScoresDesc (hs.easy ++ [entry]) }

/-- The "better" test of `HighScoreManager.get_rank` (high_scores.py lines
217-221): higher score, or equal score and more words, or equal score and
words and fewer errors. -/
def isBetterThan (e : ScoreEntry) (score words_completed errors : Nat) : Bool :=
  decide (e.score > score ∨
    (e.score = score ∧ e.words_completed > words_completed) ∨
    (e.score = score ∧ e.words_completed = words_completed ∧ e.errors < errors))

/-- Embeds `HighScoreManager.get_rank` (high_scores.py lines 195-223): one plus the
number of stored records that are better. -/
def getRank (score words_completed errors : Nat) (difficulty : String)
    (hs : HighScores) : Nat :=
  let d := if difficulty = "easy" ∨ difficulty = "hard" then difficulty else "easy"
  let lst := if d = "hard" then hs.hard else hs.easy
  if lst.isEmpty then 1
  else (lst.filter (fun e => isBetterThan e score words_completed errors)).length + 1

/-- The 4-key leaderboard ordering the spec states (§4.3): score descending,
then words completed descending, then errors ascending, then elapsed time
ascending.  `specRankHigher a b` says `a` must be placed above `b`.  This
definition follows the spec's words, to be compared against the order
`addScore` actually stores. -/
def specRankHigher (a b : ScoreEntry) : Prop :=
  a.score > b.score ∨
    (a.score = b.score ∧ (a.words_completed > b.words_completed ∨
      (a.words_completed = b.words_completed ∧ (a.errors < b.errors ∨
        (a.errors = b.errors ∧ a.time_taken < b.time_taken)))))

instance (a b : ScoreEntry) : Decidable (specRankHigher a b) := by
  unfold specRankHigher; infer_instance

/-! ## Analog feedback controller (`src/hardware/megohmmeter_control.py`)

The observable output of the real `MegohmmeterController` is `current_value`,
written by the command handlers and by the transition worker's
interpolation loop.  A command's effect is modelled as the list of values
the worker would write if it ran to completion (`cmdTrace`) together with
the resulting state (`applyCmd`); a cancelled transition only writes a
prefix of that list and resumes from whatever value was last written, which
the invariant below covers since it bounds every written value. -/

structure ActState where
  current_value : ℚ
  is_key_pressed : Bool
  baseline_force : ℚ
  dot_amplitude : ℚ
  dash_amplitude : ℚ
  deriving Repr, DecidableEq

/-- The five commands the game loop issues to the controller. -/
inductive ActCmd where
  | keyPressed
  | keyReleased
  | applyDot
  | applyDash
  | forceReset
  deriving Repr, DecidableEq

/-- Embeds `steps = int(duration * 50); if steps < 2: steps = 2`
(`_transition_worker_to`, megohmmeter_control.py lines 246-248). -/
def transSteps (duration : ℚ) : Nat :=
  max 2 (duration * 50).floor.toNat

/-- The interpolation values of `_transition_worker_to` (lines 254-263):
`start + (target - start) * ((i + 1) / steps)` for `i = 0 .. steps - 1`. -/
def transTrace (start target : ℚ) (steps : Nat) : List ℚ :=
  (List.range steps).map
    (fun (i : Nat) => start + (target - start) * (((i : ℚ) + 1) / (steps : ℚ)))

/-- The values a command writes to `current_value`:
`key_pressed` (lines 169-187) sets the dot amplitude, `key_released`
(189-203) and `force_reset` (269-283) set `0.0`, and `apply_dot` /
`apply_dash` (205-227) run the interpolation worker toward the dot / dash
amplitude over `0.15` / `0.25` seconds — but only while the key is down. -/
def cmdTrace (s : ActState) : ActCmd → List ℚ
  | ActCmd.keyPressed => [s.dot_amplitude]
  | ActCmd.keyReleased => [0]
  | ActCmd.forceReset => [0]
  | ActCmd.applyDot =>
    if s.is_key_pressed then
      transTrace s.current_value s.dot_amplitude (transSteps (15/100))
    else []
  | ActCmd.applyDash =>
    if s.is_key_pressed then
      transTrace s.current_value s.dash_amplitude (transSteps (25/100))
    else []

/-- The state after a command completes (the last value of its trace, or no
change when the trace is empty), plus the `is_key_pressed` bookkeeping. -/
def applyCmd (s : ActState) : ActCmd → ActState
  | ActCmd.keyPressed => { s with is_key_pressed := true, current_value := s.dot_amplitude }
  | ActCmd.keyReleased => { s with is_key_pressed := false, current_value := 0 }
  | ActCmd.forceReset => { s with is_key_pressed := false, current_value := 0 }
  | ActCmd.applyDot =>
    if s.is_key_pressed then { s with current_value := s.dot_amplitude } else s
  | ActCmd.applyDash =>
    if s.is_key_pressed then { s with current_value := s.dash_amplitude } else s

/-- Every value written to `current_value` while a command sequence runs. -/
def actRun (s : ActState) : List ActCmd → List ℚ
  | [] => []
  | c :: cs => cmdTrace s c ++ actRun (applyCmd s c) cs

/-- The state after a whole command sequence. -/
def actFinal (s : ActState) : List ActCmd → ActState :=
  List.foldl applyCmd s

/-! ## The in-session operations

The operations the control loop can invoke on a running session (the
random word / practice letter the external generator would supply are
explicit arguments).  `start_new_game` begins a *new* session — it resets
the whole `GameData` including `total_errors` — and so is not a session
operation. -/

inductive SessionOp where
  | keyRelease (now press_duration : ℚ)
  | morseCheck (now : ℚ) (nextWord : String)
  | clearInput
  | timeouts (now : ℚ) (nextWord newLetter : String)
  | completeWord (now : ℚ) (nextWord : String)
  | expireWord (now : ℚ) (nextWord : String)
  | finishGame
  | practiceCheck (now : ℚ)
  | practiceTimeouts (now : ℚ) (newLetter : String)
  deriving Repr, DecidableEq

/-- Run one session operation; `none` is an escaping exception. -/
def applyOp (s : ControllerState) : SessionOp → Option ControllerState
  | SessionOp.keyRelease now d => some (onKeyRelease now d s)
  | SessionOp.morseCheck now nw => (checkMorseInput now nw s).map Prod.fst
  | SessionOp.clearInput => some (clearCurrentInput s)
  | SessionOp.timeouts now nw nl => (checkTimeouts now nw nl s).map Prod.fst
  | SessionOp.completeWord now nw => some (wordCompleted now nw s)
  | SessionOp.expireWord now nw => some (wordTimeExpired now nw s)
  | SessionOp.finishGame => some (endGame s)
  | SessionOp.practiceCheck now => some (checkPracticeMorseInput now s).1
  | SessionOp.practiceTimeouts now nl => some (checkPracticeTimeouts now nl s).1

/-! ## Concrete states used by the claim theorems -/

/-- The spec's scenario state for C2: word `"SOS"` in easy mode, first two
letters already green, pending sequence `"..."` (the last `S`). -/
def sosState : ControllerState :=
  { current_state := GameState.playing,
    game_data := { difficulty := "easy", current_word := "SOS",
                   letter_colors := ["green", "green", "white"],
                   current_letter_index := 2, time_remaining := 100,
                   game_start_time := some 0 },
    current_sequence := "...", last_element_time := some 10,
    last_timeout_check := 10 }

/-- The spec's scenario state for C6: word `"CAT"`, nothing typed yet, and
the pending sequence `"..."` about to decode to `S ≠ C`. -/
def catState : ControllerState :=
  { current_state := GameState.playing,
    game_data := { difficulty := "easy", current_word := "CAT",
                   letter_colors := ["white", "white", "white"],
                   current_letter_index := 0, time_remaining := 100,
                   game_start_time := some 0, word_start_time := some 10,
                   word_time_limit := 30 },
    current_sequence := "...", last_element_time := some 10,
    last_timeout_check := 10 }

/-- A hard-mode playing state with two-word streak and `50 s` left. -/
def hardStreakState (streak : Nat) : ControllerState :=
  { current_state := GameState.playing,
    game_data := { difficulty := "hard", current_word := "SOS",
                   letter_colors := ["green", "green", "green"],
                   current_letter_index := 3, time_remaining := 50,
                   streak_count := streak } }

/-- The controller as configured in `config.py`: pull-back `0.05`, dot
amplitude `0.6`, dash amplitude `1.0`, needle at rest. -/
def actConfigState : ActState :=
  { current_value := 0, is_key_pressed := false, baseline_force := 1/20,
    dot_amplitude := 3/5, dash_amplitude := 1 }


/-! ## Field-preservation lemmas

Small rewriting lemmas recording which fields the state operations leave
untouched; used throughout the claim theorems. -/

@[simp] lemma startWordTimer_time_remaining (now : ℚ) (w : String) (g : GameData) :
    (startWordTimer now w g).time_remaining = g.time_remaining := by
  unfold startWordTimer; dsimp only; split_ifs <;> rfl

@[simp] lemma startWordTimer_words_completed (now : ℚ) (w : String) (g : GameData) :
    (startWordTimer now w g).words_completed = g.words_completed := by
  unfold startWordTimer; dsimp only; split_ifs <;> rfl

@[simp] lemma startWordTimer_streak_count (now : ℚ) (w : String) (g : GameData) :
    (startWordTimer now w g).streak_count = g.streak_count := by
  unfold startWordTimer; dsimp only; split_ifs <;> rfl

@[simp] lemma startWordTimer_total_errors (now : ℚ) (w : String) (g : GameData) :
    (startWordTimer now w g).total_errors = g.total_errors := by
  unfold startWordTimer; dsimp only; split_ifs <;> rfl

@[simp] lemma startWordTimer_current_word (now : ℚ) (w : String) (g : GameData) :
    (startWordTimer now w g).current_word = g.current_word := by
  unfold startWordTimer; dsimp only; split_ifs <;> rfl

@[simp] lemma startWordTimer_current_letter_index (now : ℚ) (w : String) (g : GameData) :
    (startWordTimer now w g).current_letter_index = g.current_letter_index := by
  unfold startWordTimer; dsimp only; split_ifs <;> rfl

@[simp] lemma startWordTimer_letter_colors (now : ℚ) (w : String) (g : GameData) :
    (startWordTimer now w g).letter_colors = g.letter_colors := by
  unfold startWordTimer; dsimp only; split_ifs <;> rfl

@[simp] lemma getNextWord_current_sequence (now : ℚ) (nw : String) (s : ControllerState) :
    (getNextWord now nw s).current_sequence = "" := rfl

@[simp] lemma getNextWord_current_state (now : ℚ) (nw : String) (s : ControllerState) :
    (getNextWord now nw s).current_state = s.current_state := rfl

@[simp] lemma getNextWord_time_remaining (now : ℚ) (nw : String) (s : ControllerState) :
    (getNextWord now nw s).game_data.time_remaining = s.game_data.time_remaining := by
  unfold getNextWord startNewWord; dsimp only; simp

@[simp] lemma getNextWord_words_completed (now : ℚ) (nw : String) (s : ControllerState) :
    (getNextWord now nw s).game_data.words_completed = s.game_data.words_completed := by
  unfold getNextWord startNewWord; dsimp only; simp

@[simp] lemma getNextWord_streak_count (now : ℚ) (nw : String) (s : ControllerState) :
    (getNextWord now nw s).game_data.streak_count = s.game_data.streak_count := by
  unfold getNextWord startNewWord; dsimp only; simp

@[simp] lemma getNextWord_total_errors (now : ℚ) (nw : String) (s : ControllerState) :
    (getNextWord now nw s).game_data.total_errors = s.game_data.total_errors := by
  unfold getNextWord startNewWord; dsimp only; simp

@[simp] lemma getNextWord_current_word (now : ℚ) (nw : String) (s : ControllerState) :
    (getNextWord now nw s).game_data.current_word = nw := by
  unfold getNextWord startNewWord; dsimp only; simp

@[simp] lemma getNextWord_current_letter_index (now : ℚ) (nw : String) (s : ControllerState) :
    (getNextWord now nw s).game_data.current_letter_index = 0 := by
  unfold getNextWord startNewWord; dsimp only; simp

@[simp] lemma wordTimeExpired_current_sequence (now : ℚ) (nw : String) (s : ControllerState) :
    (wordTimeExpired now nw s).current_sequence = "" := rfl

@[simp] lemma endGame_current_sequence (s : ControllerState) :
    (endGame s).current_sequence = s.current_sequence := rfl

@[simp] lemma endGame_total (s : ControllerState) :
    (endGame s).game_data.total_errors = s.game_data.total_errors := rfl

lemma onKeyRelease_total (now d : ℚ) (s : ControllerState) :
    (onKeyRelease now d s).game_data.total_errors = s.game_data.total_errors := by
  unfold onKeyRelease
  dsimp only
  split_ifs <;> rfl

lemma wordTimeExpired_total (now : ℚ) (nw : String) (s : ControllerState) :
    (wordTimeExpired now nw s).game_data.total_errors = s.game_data.total_errors := by
  unfold wordTimeExpired resetStreak
  simp

/-- Servicing the word timer and session clock never changes the pending
sequence once it is empty. -/
lemma serviceClock_seq (now delta : ℚ) (nw : String) (s : ControllerState)
    (h : s.current_sequence = "") :
    (serviceClock now delta nw s).current_sequence = "" := by
  unfold serviceClock
  dsimp only
  by_cases hexp : isWordTimeExpired now s.game_data
  · rw [if_pos hexp]
    cases hg : (wordTimeExpired now nw s).game_data.game_start_time with
    | none => simp
    | some t =>
      dsimp only
      split_ifs <;> simp
  · rw [if_neg hexp]
    cases hg : s.game_data.game_start_time with
    | none => simpa using h
    | some t =>
      dsimp only
      split_ifs <;> simp [h]

/-- Servicing the word timer and session clock never changes the error
total. -/
lemma serviceClock_total (now delta : ℚ) (nw : String) (s : ControllerState) :
    (serviceClock now delta nw s).game_data.total_errors = s.game_data.total_errors := by
  unfold serviceClock
  dsimp only
  by_cases hexp : isWordTimeExpired now s.game_data
  · rw [if_pos hexp]
    cases hg : (wordTimeExpired now nw s).game_data.game_start_time with
    | none => simp [wordTimeExpired_total]
    | some t =>
      dsimp only
      split_ifs <;> simp [wordTimeExpired_total]
  · rw [if_neg hexp]
    cases hg : s.game_data.game_start_time with
    | none => rfl
    | some t =>
      dsimp only
      split_ifs <;> simp

/-- The fields `_word_completed` (for any settings) is guaranteed to move:
one more word, one more streak, index back to `0`, the fresh word in place,
an empty pending sequence, and the error total and mode untouched. -/
lemma wordCompletedWith_effects (st : DifficultySettings) (now : ℚ) (nw : String)
    (s : ControllerState) :
    (wordCompletedWith st now nw s).game_data.words_completed
        = s.game_data.words_completed + 1 ∧
    (wordCompletedWith st now nw s).game_data.streak_count
        = s.game_data.streak_count + 1 ∧
    (wordCompletedWith st now nw s).game_data.current_letter_index = 0 ∧
    (wordCompletedWith st now nw s).game_data.current_word = nw ∧
    (wordCompletedWith st now nw s).current_sequence = "" ∧
    (wordCompletedWith st now nw s).game_data.total_errors
        = s.game_data.total_errors ∧
    (wordCompletedWith st now nw s).current_state = s.current_state := by
  unfold wordCompletedWith incrementStreak
  dsimp only
  split_ifs <;> simp

lemma wordCompletedWith_total (st : DifficultySettings) (now : ℚ) (nw : String)
    (s : ControllerState) :
    (wordCompletedWith st now nw s).game_data.total_errors = s.game_data.total_errors :=
  (wordCompletedWith_effects st now nw s).2.2.2.2.2.1

lemma checkPracticeMorseInput_total (now : ℚ) (s : ControllerState) :
    (checkPracticeMorseInput now s).1.game_data.total_errors
      = s.game_data.total_errors := by
  unfold checkPracticeMorseInput
  dsimp only
  split_ifs <;> rfl

lemma checkPracticeTimeouts_total (now : ℚ) (nl : String) (s : ControllerState) :
    (checkPracticeTimeouts now nl s).1.game_data.total_errors
      = s.game_data.total_errors := by
  unfold checkPracticeTimeouts
  by_cases hp : s.current_state ≠ GameState.practice
  · rw [if_pos hp]
  · rw [if_neg hp]
    dsimp only
    cases hle : s.last_element_time with
    | none =>
      dsimp only
      cases hnext : s.game_data.practice_next_letter_time with
      | none => rfl
      | some t =>
        dsimp only
        split_ifs <;> rfl
    | some t0 =>
      dsimp only
      split_ifs with hc
      · cases hnext : (checkPracticeMorseInput now
            { s with last_element_time := some t0,
                     last_timeout_check := now }).1.game_data.practice_next_letter_time with
        | none => simp [checkPracticeMorseInput_total]
        | some t =>
          dsimp only
          split_ifs <;> simp [generatePracticeLetter, checkPracticeMorseInput_total]
      · cases hnext : s.game_data.practice_next_letter_time with
        | none => rfl
        | some t =>
          dsimp only
          split_ifs <;> rfl

/-- The operation `check_morse_input` never decreases the session error total: its only
write to `total_errors` is the mismatch branch's `add_error`. -/
lemma checkMorseInput_total_mono (now : ℚ) (nw : String) (s s' : ControllerState) (n : Nat)
    (h : checkMorseInput now nw s = some (s', n)) :
    s.game_data.total_errors ≤ s'.game_data.total_errors := by
  unfold checkMorseInput at h
  by_cases h1 : s.current_sequence = "" ∨ s.current_state ≠ GameState.playing
  · rw [if_pos h1] at h
    simp only [Option.some.injEq, Prod.mk.injEq] at h
    obtain ⟨rfl, rfl⟩ := h
    exact le_refl _
  · rw [if_neg h1] at h
    dsimp only at h
    by_cases hd : decode s.current_sequence = ""
    · rw [if_pos hd] at h
      simp only [Option.some.injEq, Prod.mk.injEq] at h
      obtain ⟨rfl, rfl⟩ := h
      exact le_refl _
    · rw [if_neg hd] at h
      by_cases hge : s.game_data.current_letter_index ≥ s.game_data.current_word.length
      · rw [if_pos hge] at h
        simp only [Option.some.injEq, Prod.mk.injEq] at h
        obtain ⟨rfl, rfl⟩ := h
        exact le_refl _
      · rw [if_neg hge] at h
        by_cases hm : decode s.current_sequence =
            (s.game_data.current_word.data.getD s.game_data.current_letter_index ' ').toString
        · rw [if_pos hm] at h
          rcases hls : listSet? s.game_data.letter_colors
              s.game_data.current_letter_index "green" with _ | colors
          · rw [hls] at h
            exact absurd h (by simp)
          · rw [hls] at h
            dsimp only at h
            by_cases hcomp : s.game_data.current_letter_index + 1 ≥
                s.game_data.current_word.length
            · rw [if_pos hcomp] at h
              simp only [Option.some.injEq, Prod.mk.injEq] at h
              obtain ⟨rfl, rfl⟩ := h
              have hX := wordCompletedWith_total
                (getDifficultySettings s.game_data.difficulty) now nw
                { s with game_data := { s.game_data with
                    letter_colors := colors,
                    current_letter_index := s.game_data.current_letter_index + 1 } }
              exact le_of_eq hX.symm
            · rw [if_neg hcomp] at h
              simp only [Option.some.injEq, Prod.mk.injEq] at h
              obtain ⟨rfl, rfl⟩ := h
              exact le_refl _
        · rw [if_neg hm] at h
          unfold addError at h
          dsimp only at h
          rcases hls : listSet? s.game_data.letter_colors
              s.game_data.current_letter_index "red" with _ | colors
          · rw [hls] at h
            exact absurd h (by simp)
          · rw [hls] at h
            dsimp only at h
            simp only [Option.some.injEq, Prod.mk.injEq] at h
            obtain ⟨rfl, rfl⟩ := h
            exact Nat.le_succ _

/-- The operation `check_timeouts` never decreases the session error total. -/
lemma checkTimeouts_total_mono (now : ℚ) (nw nl : String) (s s' : ControllerState) (n : Nat)
    (h : checkTimeouts now nw nl s = some (s', n)) :
    s.game_data.total_errors ≤ s'.game_data.total_errors := by
  unfold checkTimeouts at h
  by_cases hp : s.current_state = GameState.practice
  · rw [if_pos hp] at h
    simp only [Option.some.injEq] at h
    have h1 := congrArg Prod.fst h
    dsimp only at h1
    rw [← h1, checkPracticeTimeouts_total]
  · rw [if_neg hp] at h
    by_cases hpl : s.current_state ≠ GameState.playing
    · rw [if_pos hpl] at h
      simp only [Option.some.injEq, Prod.mk.injEq] at h
      obtain ⟨rfl, rfl⟩ := h
      exact le_refl _
    · rw [if_neg hpl] at h
      dsimp only at h
      cases hle : s.last_element_time with
      | none =>
        rw [hle] at h
        dsimp only at h
        simp only [Option.some.injEq, Prod.mk.injEq] at h
        obtain ⟨rfl, rfl⟩ := h
        have ht := serviceClock_total now (now - s.last_timeout_check) nw
          { s with last_element_time := none, last_timeout_check := now }
        exact le_of_eq ht.symm
      | some t0 =>
        rw [hle] at h
        dsimp only at h
        by_cases hc : s.current_sequence ≠ "" ∧ now - t0 ≥ LETTER_GAP
        · rw [if_pos hc] at h
          rcases hcm : checkMorseInput now nw
              { s with last_element_time := some t0, last_timeout_check := now }
            with _ | p
          · rw [hcm] at h
            exact absurd h (by simp)
          · obtain ⟨s1, m⟩ := p
            rw [hcm] at h
            dsimp only at h
            simp only [Option.some.injEq, Prod.mk.injEq] at h
            obtain ⟨rfl, rfl⟩ := h
            have h2 := checkMorseInput_total_mono now nw _ _ _ hcm
            have h3 := serviceClock_total now (now - s.last_timeout_check) nw
              { s1 with last_element_time := some now }
            exact le_trans h2 (le_of_eq h3.symm)
        · rw [if_neg hc] at h
          dsimp only at h
          simp only [Option.some.injEq, Prod.mk.injEq] at h
          obtain ⟨rfl, rfl⟩ := h
          have ht := serviceClock_total now (now - s.last_timeout_check) nw
            { s with last_element_time := some t0, last_timeout_check := now }
          exact le_of_eq ht.symm

/-- Deleting a key of a dict with distinct keys really removes it. -/
lemma dictContains_dictDel (d : List (Nat × Nat)) (k : Nat)
    (hnd : (d.map Prod.fst).Nodup) : dictContains (dictDel d k) k = false := by
  induction d with
  | nil => rfl
  | cons p rest ih =>
    obtain ⟨k', v'⟩ := p
    simp only [List.map_cons, List.nodup_cons] at hnd
    by_cases h : k' = k
    · subst h
      simp only [dictDel, if_pos rfl]
      rw [dictContains, List.any_eq_false]
      intro p hp
      simp only [beq_iff_eq]
      intro hpk
      exact hnd.1 (hpk ▸ List.mem_map_of_mem Prod.fst hp)
    · simp only [dictDel, if_neg h, dictContains, List.any_cons]
      rw [show (k' == k) = false from beq_eq_false_iff_ne.2 h]
      simpa [dictContains] using ih hnd.2

lemma clearCurrentInput_total (s : ControllerState) :
    (clearCurrentInput s).game_data.total_errors = s.game_data.total_errors := by
  unfold clearCurrentInput
  dsimp only
  split_ifs <;> rfl

/-! ## Theorems settling the claims -/

/-- C4: Every character that is a key of the Morse table round-trips:
`decode (encode c) = c`, and the table is a bijection — its keys are
pairwise distinct and no two keys map to the same dot/dash code.  (The
round-trip is stated for the single-character keys; the table's one
two-character key `", "` is not a character.) -/
theorem morse_table_roundtrip_and_bijection :
    (MORSE_CODE_DICT.map Prod.fst).Nodup ∧
    (MORSE_CODE_DICT.map Prod.snd).Nodup ∧
    ∀ p ∈ MORSE_CODE_DICT, p.1.length = 1 → decode (encode p.1) = p.1 :=
  ⟨by decide, by decide, by decide⟩

/-- Witness for C4 at a concrete table entry: `"S"` encodes to `"..."` and
decodes back. -/
theorem morse_table_roundtrip_and_bijection_witness :
    ("S", "...") ∈ MORSE_CODE_DICT ∧ decode (encode "S") = "S" :=
  ⟨by decide, morse_table_roundtrip_and_bijection.2.2 ("S", "...") (by decide) (by decide)⟩

/-- C1 (counter-evidence): Two records with equal score where one has
more words completed: `add_score` stores the fewer-words record *first*
(its sort key negates `words_completed` under `reverse=True`), although the
spec's 4-key ordering — and the code's own `get_rank` — place the
more-words record higher; and among records tying on score, words and
errors, `add_score` stores the *larger* `time_taken` first. -/
theorem addScore_order_contradicts_rank :
    (addScore "alice" 5 2 10 0 "easy"
        (addScore "bob" 5 1 10 0 "easy" {})).easy.map ScoreEntry.nickname
      = ["bob", "alice"] ∧
    specRankHigher
      { nickname := "alice", score := 5, words_completed := 2, time_taken := 10,
        errors := 0, difficulty := "easy" }
      { nickname := "bob", score := 5, words_completed := 1, time_taken := 10,
        errors := 0, difficulty := "easy" } ∧
    getRank 5 2 0 "easy" (addScore "bob" 5 1 10 0 "easy" {}) = 1 ∧
    getRank 5 1 0 "easy" (addScore "alice" 5 2 10 0 "easy" {}) = 2 ∧
    (addScore "carol" 5 2 20 0 "easy"
        (addScore "dave" 5 2 10 0 "easy" {})).easy.map ScoreEntry.time_taken
      = [20, 10] := by
  decide

/-- C8 (counterexample): The word time limit is *not* monotone in word
length: on easy difficulty, `"OO"` (length 2) is granted a larger limit
than `"CAT"` (length 3), because each letter O adds `o_letter_bonus`. -/
theorem word_time_limit_not_monotone_in_length :
    "OO".length ≤ "CAT".length ∧
    (startWordTimer 0 "CAT" {}).word_time_limit
      < (startWordTimer 0 "OO" {}).word_time_limit := by
  constructor
  · decide
  · have hOO : (startWordTimer 0 "OO" ({} : GameData)).word_time_limit = 23 := by
      unfold startWordTimer
      rw [if_pos (by decide : ("OO" : String) ≠ "")]
      dsimp only
      rw [show countO "OO" = 2 from rfl, show ("OO" : String).length = 2 from rfl]
      norm_num [getDifficultySettings, easySettings]
    have hCAT : (startWordTimer 0 "CAT" ({} : GameData)).word_time_limit = 45/2 := by
      unfold startWordTimer
      rw [if_pos (by decide : ("CAT" : String) ≠ "")]
      dsimp only
      rw [show countO "CAT" = 0 from rfl, show ("CAT" : String).length = 3 from rfl]
      norm_num [getDifficultySettings, easySettings]
    rw [hOO, hCAT]
    norm_num

/-- C8 (amended): For a fixed difficulty, the limit computed by
`start_word_timer` is monotone once *both* the length and the O-count
do not decrease: `len w1 ≤ len w2` and `countO w1 ≤ countO w2` give
`limit w1 ≤ limit w2` (for the nonempty words the generator produces). -/
theorem word_time_limit_monotone_in_length_and_O (now : ℚ) (g : GameData)
    (w1 w2 : String) (h1 : w1 ≠ "") (h2 : w2 ≠ "")
    (hlen : w1.length ≤ w2.length) (hO : countO w1 ≤ countO w2) :
    (startWordTimer now w1 g).word_time_limit
      ≤ (startWordTimer now w2 g).word_time_limit := by
  have hp : 0 ≤ (getDifficultySettings g.difficulty).time_per_letter := by
    unfold getDifficultySettings
    split_ifs <;> norm_num [easySettings, hardSettings]
  have ho : 0 ≤ (getDifficultySettings g.difficulty).o_letter_bonus := by
    unfold getDifficultySettings
    split_ifs <;> norm_num [easySettings, hardSettings]
  unfold startWordTimer
  rw [if_pos h1, if_pos h2]
  dsimp only
  have hlen' : ((w1.length : ℚ)) * (getDifficultySettings g.difficulty).time_per_letter
      ≤ ((w2.length : ℚ)) * (getDifficultySettings g.difficulty).time_per_letter :=
    mul_le_mul_of_nonneg_right (by exact_mod_cast hlen) hp
  have hO' : ((countO w1 : ℚ)) * (getDifficultySettings g.difficulty).o_letter_bonus
      ≤ ((countO w2 : ℚ)) * (getDifficultySettings g.difficulty).o_letter_bonus :=
    mul_le_mul_of_nonneg_right (by exact_mod_cast hO) ho
  linarith

/-- Witness for the amended C8 at concrete words `"AT"` and `"CAT"`. -/
theorem word_time_limit_monotone_in_length_and_O_witness :
    (startWordTimer 0 "AT" {}).word_time_limit
      ≤ (startWordTimer 0 "CAT" {}).word_time_limit :=
  word_time_limit_monotone_in_length_and_O 0 {} "AT" "CAT"
    (by decide) (by decide) (by decide) (by decide)

/-- C5: During play, a release of duration `d ≥ DEBOUNCE_TIME` appends a
dot exactly when `d < (DOT_DURATION + DASH_DURATION) / 2` and a dash
otherwise; with the configured `0.16`/`0.48` thresholds, a `0.20 s` press
appends a dot and a `0.40 s` press a dash. -/
theorem onKeyRelease_dot_iff_below_midpoint (now d : ℚ) (s : ControllerState)
    (hplay : s.current_state = GameState.playing)
    (hdeb : DEBOUNCE_TIME ≤ d) :
    (onKeyRelease now d s).current_sequence =
      s.current_sequence ++
        (if d < (DOT_DURATION + DASH_DURATION) / 2 then "." else "-") ∧
    (onKeyRelease now (2/10) s).current_sequence = s.current_sequence ++ "." ∧
    (onKeyRelease now (4/10) s).current_sequence = s.current_sequence ++ "-" := by
  refine ⟨?_, ?_, ?_⟩
  · unfold onKeyRelease
    rw [if_neg (by simp [hplay]), if_neg (not_lt.2 hdeb)]
    dsimp only
    split_ifs <;> rfl
  · unfold onKeyRelease
    rw [if_neg (by simp [hplay]),
      if_neg (by norm_num [DEBOUNCE_TIME] : ¬((2 : ℚ)/10 < DEBOUNCE_TIME))]
    dsimp only
    split_ifs with h
    · rfl
    · exact absurd (by norm_num [DOT_DURATION, DASH_DURATION, DIT] :
        (2 : ℚ)/10 < (DOT_DURATION + DASH_DURATION) / 2) h
  · unfold onKeyRelease
    rw [if_neg (by simp [hplay]),
      if_neg (by norm_num [DEBOUNCE_TIME] : ¬((4 : ℚ)/10 < DEBOUNCE_TIME))]
    dsimp only
    split_ifs with h
    · exact absurd h (by norm_num [DOT_DURATION, DASH_DURATION, DIT] :
        ¬((4 : ℚ)/10 < (DOT_DURATION + DASH_DURATION) / 2))
    · rfl

/-- The hard-mode branch of the `_word_completed` bonus policy, for arbitrary
settings: the bonus is added exactly under the source's guard
`amount > 0 and streak > 0 and streak % 3 == 0`, evaluated at the
just-incremented streak. -/
lemma wordCompletedWith_hard_time (st : DifficultySettings) (now : ℚ) (nw : String)
    (s : ControllerState) (hd : s.game_data.difficulty = "hard") :
    (wordCompletedWith st now nw s).game_data.time_remaining =
      if 0 < st.time_bonus_amount ∧ 0 < s.game_data.streak_count + 1 ∧
          (s.game_data.streak_count + 1) % 3 = 0
      then s.game_data.time_remaining + st.time_bonus_amount
      else s.game_data.time_remaining := by
  unfold wordCompletedWith incrementStreak
  dsimp only
  rw [hd, if_pos rfl]
  split_ifs with h
  · simp
  · simp

/-- The easy-mode branch of the `_word_completed` bonus policy, for arbitrary
settings: the bonus is added exactly under the source's guard
`streak_every > 0 and streak_amount > 0 and streak == streak_every`,
evaluated at the just-incremented streak. -/
lemma wordCompletedWith_easy_time (st : DifficultySettings) (now : ℚ) (nw : String)
    (s : ControllerState) (hd : s.game_data.difficulty = "easy") :
    (wordCompletedWith st now nw s).game_data.time_remaining =
      if 0 < st.streak_bonus_every_words ∧ 0 < st.streak_bonus_amount ∧
          s.game_data.streak_count + 1 = st.streak_bonus_every_words
      then s.game_data.time_remaining + st.streak_bonus_amount
      else s.game_data.time_remaining := by
  unfold wordCompletedWith incrementStreak
  dsimp only
  rw [hd, if_neg (by decide : ¬("easy" = "hard")), if_pos rfl]
  split_ifs with h
  · simp
  · simp

/-- C3: On word completion (the streak having just been incremented):
in hard mode with the shipped settings the `15 s` bonus lands on
`time_remaining` exactly when the new streak is a (positive) multiple of 3;
in easy mode with the shipped settings no bonus is ever added (the easy
config carries no streak-bonus keys, so both `.get(..., 0)` defaults are
`0` and the guard never passes); and for any easy-mode settings that do
configure a positive threshold and amount, the bonus lands exactly when
the new streak equals the configured threshold — a single streak value, so
it cannot repeat within one unbroken streak. -/
theorem wordCompleted_bonus_policy (now : ℚ) (nextWord : String) (s : ControllerState) :
    (s.game_data.difficulty = "hard" →
      (wordCompleted now nextWord s).game_data.time_remaining =
        s.game_data.time_remaining +
          (if (s.game_data.streak_count + 1) % 3 = 0 then 15 else 0)) ∧
    (s.game_data.difficulty = "easy" →
      (wordCompleted now nextWord s).game_data.time_remaining =
        s.game_data.time_remaining) ∧
    (∀ st : DifficultySettings, s.game_data.difficulty = "easy" →
      0 < st.streak_bonus_every_words → 0 < st.streak_bonus_amount →
      (wordCompletedWith st now nextWord s).game_data.time_remaining =
        s.game_data.time_remaining +
          (if s.game_data.streak_count + 1 = st.streak_bonus_every_words
           then st.streak_bonus_amount else 0)) := by
  refine ⟨?_, ?_, ?_⟩
  · intro hd
    unfold wordCompleted
    rw [hd, show getDifficultySettings "hard" = hardSettings from rfl,
      wordCompletedWith_hard_time hardSettings now nextWord s hd,
      show hardSettings.time_bonus_amount = 15 from rfl]
    by_cases hm : (s.game_data.streak_count + 1) % 3 = 0
    · rw [if_pos ⟨by norm_num, Nat.succ_pos _, hm⟩, if_pos hm]
    · rw [if_neg (fun hcon => hm hcon.2.2), if_neg hm, add_zero]
  · intro hd
    unfold wordCompleted
    rw [hd, show getDifficultySettings "easy" = easySettings from rfl,
      wordCompletedWith_easy_time easySettings now nextWord s hd,
      if_neg (by rintro ⟨h0, _⟩; simp [easySettings] at h0)]
  · intro st hd he ha
    rw [wordCompletedWith_easy_time st now nextWord s hd]
    by_cases hm : s.game_data.streak_count + 1 = st.streak_bonus_every_words
    · rw [if_pos ⟨he, ha, hm⟩, if_pos hm]
    · rw [if_neg (fun hcon => hm hcon.2.2), if_neg hm, add_zero]

/-- Setting a key then reading it back through the dict model returns the
value just written. -/
lemma dictGet_dictSet_self (d : List (Nat × Nat)) (k v : Nat) :
    dictGet (dictSet d k v) k = v := by
  induction d with
  | nil => simp [dictSet, dictGet]
  | cons p rest ih =>
    obtain ⟨k', v'⟩ := p
    by_cases h : k' = k
    · subst h
      simp [dictSet, dictGet]
    · simp only [dictSet, if_neg h, dictGet, List.lookup]
      rw [show (k == k') = false from beq_eq_false_iff_ne.2 (Ne.symm h)]
      simpa [dictGet] using ih

/-- C2: In `PLAYING`, when the pending sequence decodes to the last
remaining letter of the current word, `check_morse_input` completes the
word: `words_completed` and the streak each grow by exactly 1, the letter
index returns to 0, the next word is installed — and no exception is
raised (the result is `some`, with exactly one decode attempt). -/
theorem checkMorseInput_full_word (now : ℚ) (nextWord : String) (s : ControllerState)
    (hplay : s.current_state = GameState.playing)
    (hseq : s.current_sequence ≠ "")
    (hcols : s.game_data.letter_colors.length = s.game_data.current_word.length)
    (hlast : s.game_data.current_letter_index + 1 = s.game_data.current_word.length)
    (c : Char)
    (hc : s.game_data.current_word.data.get? s.game_data.current_letter_index = some c)
    (hdec : decode s.current_sequence = c.toString) :
    ∃ s', checkMorseInput now nextWord s = some (s', 1) ∧
      s'.game_data.words_completed = s.game_data.words_completed + 1 ∧
      s'.game_data.streak_count = s.game_data.streak_count + 1 ∧
      s'.game_data.current_letter_index = 0 ∧
      s'.game_data.current_word = nextWord ∧
      s'.current_sequence = "" := by
  have hne : c.toString ≠ "" := by
    intro h
    have h' := congrArg String.data h
    simp [Char.toString, String.singleton] at h'
  unfold checkMorseInput
  rw [if_neg (by simp [hseq, hplay])]
  dsimp only
  rw [hdec, if_neg hne,
    if_neg (by omega :
      ¬(s.game_data.current_letter_index ≥ s.game_data.current_word.length))]
  rw [List.getD, hc]
  simp only [Option.getD_some, if_true]
  unfold listSet?
  rw [if_pos (by omega :
    s.game_data.current_letter_index < s.game_data.letter_colors.length)]
  dsimp only
  rw [if_pos (show s.game_data.current_letter_index + 1 ≥
    s.game_data.current_word.length by omega)]
  refine ⟨_, rfl, ?_⟩
  have he := wordCompletedWith_effects (getDifficultySettings s.game_data.difficulty)
    now nextWord
    { s with game_data := { s.game_data with
        letter_colors := s.game_data.letter_colors.set s.game_data.current_letter_index "green",
        current_letter_index := s.game_data.current_letter_index + 1 } }
  unfold wordCompleted
  exact ⟨he.1, he.2.1, he.2.2.1, he.2.2.2.1, rfl⟩

/-- Witness for C2 on the `"SOS"` scenario. -/
theorem checkMorseInput_full_word_witness :
    ∃ s', checkMorseInput 11 "WIFI" sosState = some (s', 1) ∧
      s'.game_data.words_completed = 1 ∧
      s'.game_data.streak_count = 1 ∧
      s'.game_data.current_letter_index = 0 ∧
      s'.game_data.current_word = "WIFI" ∧
      s'.current_sequence = "" :=
  checkMorseInput_full_word 11 "WIFI" sosState rfl (by decide) (by decide)
    (by decide) 'S' (by decide) (by decide)

/-- C6: In `PLAYING`, when the pending sequence decodes to a known
character that does not match the current target letter,
`check_morse_input` paints that letter red, bumps its per-letter error
count by 1 and the session total by 1, and leaves the letter index where
it was. -/
theorem checkMorseInput_wrong_letter (now : ℚ) (nextWord : String) (s : ControllerState)
    (hplay : s.current_state = GameState.playing)
    (hseq : s.current_sequence ≠ "")
    (hcols : s.game_data.letter_colors.length = s.game_data.current_word.length)
    (hidx : s.game_data.current_letter_index < s.game_data.current_word.length)
    (c : Char)
    (hc : s.game_data.current_word.data.get? s.game_data.current_letter_index = some c)
    (hne : decode s.current_sequence ≠ "")
    (hmis : decode s.current_sequence ≠ c.toString) :
    ∃ s', checkMorseInput now nextWord s = some (s', 1) ∧
      s'.game_data.letter_colors =
        s.game_data.letter_colors.set s.game_data.current_letter_index "red" ∧
      dictGet s'.game_data.letter_errors s.game_data.current_letter_index
        = dictGet s.game_data.letter_errors s.game_data.current_letter_index + 1 ∧
      s'.game_data.total_errors = s.game_data.total_errors + 1 ∧
      s'.game_data.current_letter_index = s.game_data.current_letter_index ∧
      s'.current_sequence = "" := by
  unfold checkMorseInput
  rw [if_neg (by simp [hseq, hplay])]
  dsimp only
  rw [if_neg hne,
    if_neg (by omega :
      ¬(s.game_data.current_letter_index ≥ s.game_data.current_word.length))]
  rw [List.getD, hc]
  simp only [Option.getD_some]
  rw [if_neg hmis]
  unfold listSet? addError
  dsimp only
  rw [if_pos (by omega :
    s.game_data.current_letter_index < s.game_data.letter_colors.length)]
  dsimp only
  refine ⟨_, rfl, rfl, ?_, rfl, rfl, rfl⟩
  exact dictGet_dictSet_self s.game_data.letter_errors s.game_data.current_letter_index
    (dictGet s.game_data.letter_errors s.game_data.current_letter_index + 1)

/-- Witness for C6 on the mistyped-`"CAT"` scenario. -/
theorem checkMorseInput_wrong_letter_witness :
    ∃ s', checkMorseInput 11 "WIFI" catState = some (s', 1) ∧
      s'.game_data.letter_colors = ["red", "white", "white"] ∧
      dictGet s'.game_data.letter_errors 0 = 1 ∧
      s'.game_data.total_errors = 1 ∧
      s'.game_data.current_letter_index = 0 ∧
      s'.current_sequence = "" :=
  checkMorseInput_wrong_letter 11 "WIFI" catState rfl (by decide) (by decide)
    (by decide) 'C' (by decide) (by decide) (by decide)

/-- Whatever the pending sequence decodes to — unknown pattern, a match, or
a mismatch — one `check_morse_input` call in `PLAYING` with a word still in
progress succeeds (`some`), performs exactly one decode attempt, and leaves
the pending sequence empty. -/
lemma checkMorseInput_clears (now : ℚ) (nw : String) (s : ControllerState)
    (hplay : s.current_state = GameState.playing)
    (hseq : s.current_sequence ≠ "")
    (hcols : s.game_data.letter_colors.length = s.game_data.current_word.length)
    (hidx : s.game_data.current_letter_index < s.game_data.current_word.length) :
    ∃ s', checkMorseInput now nw s = some (s', 1) ∧ s'.current_sequence = "" := by
  unfold checkMorseInput
  rw [if_neg (by simp [hseq, hplay])]
  dsimp only
  by_cases hd : decode s.current_sequence = ""
  · rw [if_pos hd]
    exact ⟨_, rfl, rfl⟩
  · rw [if_neg hd, if_neg (by omega :
      ¬(s.game_data.current_letter_index ≥ s.game_data.current_word.length))]
    by_cases hm : decode s.current_sequence =
        (s.game_data.current_word.data.getD s.game_data.current_letter_index ' ').toString
    · rw [if_pos hm]
      unfold listSet?
      rw [if_pos (by omega :
        s.game_data.current_letter_index < s.game_data.letter_colors.length)]
      dsimp only
      by_cases hcomp : s.game_data.current_letter_index + 1 ≥ s.game_data.current_word.length
      · rw [if_pos hcomp]
        exact ⟨_, rfl, rfl⟩
      · rw [if_neg hcomp]
        exact ⟨_, rfl, rfl⟩
    · rw [if_neg hm]
      unfold listSet? addError
      dsimp only
      rw [if_pos (by omega :
        s.game_data.current_letter_index < s.game_data.letter_colors.length)]
      dsimp only
      exact ⟨_, rfl, rfl⟩

/-- C7: If the pending sequence is non-empty and the letter gap has
elapsed since the last symbol, `check_timeouts` performs exactly one decode
attempt on it and ends with the sequence empty — whether the decode
succeeds, matches, mismatches or hits an unknown pattern — and no
exception reaches the caller (the result is `some`). -/
theorem checkTimeouts_one_decode_and_clears (now t0 : ℚ) (nextWord newLetter : String)
    (s : ControllerState)
    (hplay : s.current_state = GameState.playing)
    (hseq : s.current_sequence ≠ "")
    (hlast : s.last_element_time = some t0)
    (ht : t0 + LETTER_GAP ≤ now)
    (hcols : s.game_data.letter_colors.length = s.game_data.current_word.length)
    (hidx : s.game_data.current_letter_index < s.game_data.current_word.length) :
    ∃ s', checkTimeouts now nextWord newLetter s = some (s', 1) ∧
      s'.current_sequence = "" := by
  unfold checkTimeouts
  rw [if_neg (by simp [hplay]), if_neg (by simp [hplay])]
  dsimp only
  rw [hlast]
  dsimp only
  rw [if_pos ⟨hseq, by linarith⟩]
  obtain ⟨s1, heq, hs1⟩ := checkMorseInput_clears now nextWord
    { s with last_element_time := some t0, last_timeout_check := now } hplay hseq hcols hidx
  rw [heq]
  dsimp only
  exact ⟨_, rfl, serviceClock_seq now (now - s.last_timeout_check) nextWord
    { s1 with last_element_time := some now } hs1⟩

/-- Witness for C7: the `"CAT"` scenario state, polled exactly one letter
gap after its last symbol. -/
theorem checkTimeouts_one_decode_and_clears_witness :
    ∃ s', checkTimeouts (10 + LETTER_GAP) "WIFI" "Q" catState = some (s', 1) ∧
      s'.current_sequence = "" :=
  checkTimeouts_one_decode_and_clears (10 + LETTER_GAP) 10 "WIFI" "Q" catState
    rfl (by decide) rfl (le_refl _) (by decide) (by decide)

/-- Witness for C3: completing a word at streak 2 (new streak 3) grants the
hard bonus, `50 → 65`; at streak 1 (new streak 2) it does not. -/
theorem wordCompleted_bonus_policy_witness :
    (wordCompleted 5 "TOKEN" (hardStreakState 2)).game_data.time_remaining = 65 ∧
    (wordCompleted 5 "TOKEN" (hardStreakState 1)).game_data.time_remaining = 50 := by
  have h1 := (wordCompleted_bonus_policy 5 "TOKEN" (hardStreakState 2)).1 rfl
  have h2 := (wordCompleted_bonus_policy 5 "TOKEN" (hardStreakState 1)).1 rfl
  rw [h1, h2]
  norm_num [hardStreakState]

/-- Every interpolation step `start + (target - start) * ((i+1)/steps)` of
the transition worker stays inside `[0,1]` when both endpoints do: each
step value is the convex combination `(1-p)·start + p·target` with
`p = (i+1)/steps ∈ [0,1]`. -/
lemma transTrace_mem_unit (start target : ℚ) (steps : Nat)
    (hs0 : 0 ≤ start) (hs1 : start ≤ 1) (ht0 : 0 ≤ target) (ht1 : target ≤ 1) :
    ∀ v ∈ transTrace start target steps, 0 ≤ v ∧ v ≤ 1 := by
  intro v hv
  unfold transTrace at hv
  obtain ⟨i, hi, rfl⟩ := List.mem_map.1 hv
  have hi' : i < steps := List.mem_range.1 hi
  have hq : (0 : ℚ) < steps := by exact_mod_cast Nat.pos_of_ne_zero (by omega)
  have hp0 : (0 : ℚ) ≤ ((i : ℚ) + 1) / steps :=
    div_nonneg (by positivity) (le_of_lt hq)
  have hp1 : ((i : ℚ) + 1) / steps ≤ 1 := by
    rw [div_le_one hq]
    exact_mod_cast hi'
  constructor
  · nlinarith [mul_nonneg (sub_nonneg.2 hp1) hs0, mul_nonneg hp0 ht0]
  · nlinarith [mul_nonneg (sub_nonneg.2 hp1) (sub_nonneg.2 hs1),
      mul_nonneg hp0 (sub_nonneg.2 ht1)]

/-- No command changes the configured amplitudes or the pull-back force. -/
lemma applyCmd_params (s : ActState) (c : ActCmd) :
    (applyCmd s c).baseline_force = s.baseline_force ∧
    (applyCmd s c).dot_amplitude = s.dot_amplitude ∧
    (applyCmd s c).dash_amplitude = s.dash_amplitude := by
  cases c
  case applyDot =>
    simp only [applyCmd]
    split_ifs <;> simp
  case applyDash =>
    simp only [applyCmd]
    split_ifs <;> simp
  all_goals exact ⟨rfl, rfl, rfl⟩

/-- A command's final value stays in `[0,1]` when the starting value and the
amplitudes are in `[0,1]`. -/
lemma applyCmd_value_unit (s : ActState) (c : ActCmd)
    (h0 : 0 ≤ s.current_value) (h1 : s.current_value ≤ 1)
    (hd0 : 0 ≤ s.dot_amplitude) (hd1 : s.dot_amplitude ≤ 1)
    (he0 : 0 ≤ s.dash_amplitude) (he1 : s.dash_amplitude ≤ 1) :
    0 ≤ (applyCmd s c).current_value ∧ (applyCmd s c).current_value ≤ 1 := by
  cases c
  case keyPressed => exact ⟨hd0, hd1⟩
  case keyReleased => exact ⟨le_refl 0, (by norm_num : (0 : ℚ) ≤ 1)⟩
  case applyDot =>
    simp only [applyCmd]
    split_ifs
    · exact ⟨hd0, hd1⟩
    · exact ⟨h0, h1⟩
  case applyDash =>
    simp only [applyCmd]
    split_ifs
    · exact ⟨he0, he1⟩
    · exact ⟨h0, h1⟩
  case forceReset => exact ⟨le_refl 0, (by norm_num : (0 : ℚ) ≤ 1)⟩

/-- Every value a single command writes stays in `[0,1]`. -/
lemma cmdTrace_mem_unit (s : ActState) (c : ActCmd)
    (h0 : 0 ≤ s.current_value) (h1 : s.current_value ≤ 1)
    (hd0 : 0 ≤ s.dot_amplitude) (hd1 : s.dot_amplitude ≤ 1)
    (he0 : 0 ≤ s.dash_amplitude) (he1 : s.dash_amplitude ≤ 1) :
    ∀ v ∈ cmdTrace s c, 0 ≤ v ∧ v ≤ 1 := by
  intro v hv
  cases c
  case keyPressed =>
    simp only [cmdTrace, List.mem_singleton] at hv
    subst hv
    exact ⟨hd0, hd1⟩
  case keyReleased =>
    simp only [cmdTrace, List.mem_singleton] at hv
    subst hv
    exact ⟨le_refl 0, by norm_num⟩
  case applyDot =>
    simp only [cmdTrace] at hv
    split_ifs at hv with hk
    · exact transTrace_mem_unit _ _ _ h0 h1 hd0 hd1 v hv
    · simp at hv
  case applyDash =>
    simp only [cmdTrace] at hv
    split_ifs at hv with hk
    · exact transTrace_mem_unit _ _ _ h0 h1 he0 he1 v hv
    · simp at hv
  case forceReset =>
    simp only [cmdTrace, List.mem_singleton] at hv
    subst hv
    exact ⟨le_refl 0, by norm_num⟩

/-- C9: Starting from a `current_value` in `[0,1]` with configured
`baseline_force`, `dot_amplitude` and `dash_amplitude` all in `[0,1]`,
every value written during any sequence of
`key_pressed` / `key_released` / `apply_dot` / `apply_dash` / `force_reset`
commands — including every intermediate interpolation step of each
transition, hence also of every cancelled prefix — stays in `[0,1]`, and so
does the final value. -/
theorem actuator_value_stays_in_unit_range (s : ActState) (cmds : List ActCmd)
    (h0 : 0 ≤ s.current_value) (h1 : s.current_value ≤ 1)
    (hb0 : 0 ≤ s.baseline_force) (hb1 : s.baseline_force ≤ 1)
    (hd0 : 0 ≤ s.dot_amplitude) (hd1 : s.dot_amplitude ≤ 1)
    (he0 : 0 ≤ s.dash_amplitude) (he1 : s.dash_amplitude ≤ 1) :
    (∀ v ∈ actRun s cmds, 0 ≤ v ∧ v ≤ 1) ∧
    0 ≤ (actFinal s cmds).current_value ∧ (actFinal s cmds).current_value ≤ 1 := by
  induction cmds generalizing s with
  | nil => exact ⟨by simp [actRun], h0, h1⟩
  | cons c cs ih =>
    have hparams := applyCmd_params s c
    have hval := applyCmd_value_unit s c h0 h1 hd0 hd1 he0 he1
    have hrec := ih (applyCmd s c) hval.1 hval.2
      (by rw [hparams.1]; exact hb0) (by rw [hparams.1]; exact hb1)
      (by rw [hparams.2.1]; exact hd0) (by rw [hparams.2.1]; exact hd1)
      (by rw [hparams.2.2]; exact he0) (by rw [hparams.2.2]; exact he1)
    refine ⟨?_, hrec.2⟩
    intro v hv
    rw [show actRun s (c :: cs) = cmdTrace s c ++ actRun (applyCmd s c) cs from rfl] at hv
    rcases List.mem_append.1 hv with h | h
    · exact cmdTrace_mem_unit s c h0 h1 hd0 hd1 he0 he1 v h
    · exact hrec.1 v h

/-- The operation `clear_current_input` on a red current letter: the letter turns white,
its per-letter error entry disappears, and `total_errors` is untouched. -/
lemma clearCurrentInput_red (s : ControllerState)
    (hplay : s.current_state = GameState.playing)
    (hlt : s.game_data.current_letter_index < s.game_data.letter_colors.length)
    (hred : s.game_data.letter_colors.getD s.game_data.current_letter_index "" = "red")
    (hnd : (s.game_data.letter_errors.map Prod.fst).Nodup) :
    (clearCurrentInput s).game_data.letter_colors
      = s.game_data.letter_colors.set s.game_data.current_letter_index "white" ∧
    dictContains (clearCurrentInput s).game_data.letter_errors
      s.game_data.current_letter_index = false ∧
    (clearCurrentInput s).game_data.total_errors = s.game_data.total_errors := by
  unfold clearCurrentInput
  rw [if_neg (by simp [hplay])]
  dsimp only
  rw [if_pos ⟨hlt, hred⟩]
  by_cases hc : dictContains s.game_data.letter_errors s.game_data.current_letter_index
  · rw [if_pos hc]
    exact ⟨rfl, dictContains_dictDel _ _ hnd, rfl⟩
  · rw [if_neg hc]
    refine ⟨rfl, ?_, rfl⟩
    simpa using hc

/-- C10 (implicit): The session error total never decreases under any
in-session operation; `clear_current_input` on a red letter whitens it and
deletes its per-letter error entry while leaving `total_errors` alone — so
after a clear the total can exceed the sum of the per-letter counts, as the
concrete mistyped-`"CAT"` run shows (per-letter sum `0`, total `1`). -/
theorem total_errors_monotone_and_clear_preserves_total :
    (∀ (s : ControllerState) (op : SessionOp) (s' : ControllerState),
      applyOp s op = some s' →
      s.game_data.total_errors ≤ s'.game_data.total_errors) ∧
    (∀ s : ControllerState, s.current_state = GameState.playing →
      s.game_data.current_letter_index < s.game_data.letter_colors.length →
      s.game_data.letter_colors.getD s.game_data.current_letter_index "" = "red" →
      (s.game_data.letter_errors.map Prod.fst).Nodup →
      (clearCurrentInput s).game_data.letter_colors
        = s.game_data.letter_colors.set s.game_data.current_letter_index "white" ∧
      dictContains (clearCurrentInput s).game_data.letter_errors
        s.game_data.current_letter_index = false ∧
      (clearCurrentInput s).game_data.total_errors = s.game_data.total_errors) ∧
    (checkMorseInput 11 "WIFI" catState).map
        (fun p => (dictValuesSum (clearCurrentInput p.1).game_data.letter_errors,
                   (clearCurrentInput p.1).game_data.total_errors))
      = some (0, 1) := by
  refine ⟨?_, fun s h1 h2 h3 h4 => clearCurrentInput_red s h1 h2 h3 h4, by decide⟩
  intro s op s' h
  cases op with
  | keyRelease now d =>
    simp only [applyOp, Option.some.injEq] at h
    subst h
    exact le_of_eq (onKeyRelease_total now d s).symm
  | morseCheck now nw =>
    unfold applyOp at h
    dsimp only at h
    rcases hcm : checkMorseInput now nw s with _ | p
    · rw [hcm] at h
      exact absurd h (by simp)
    · obtain ⟨s1, m⟩ := p
      rw [hcm] at h
      simp only [Option.map_some', Option.some.injEq] at h
      subst h
      exact checkMorseInput_total_mono now nw s _ m hcm
  | clearInput =>
    simp only [applyOp, Option.some.injEq] at h
    subst h
    exact le_of_eq (clearCurrentInput_total s).symm
  | timeouts now nw nl =>
    unfold applyOp at h
    dsimp only at h
    rcases hct : checkTimeouts now nw nl s with _ | p
    · rw [hct] at h
      exact absurd h (by simp)
    · obtain ⟨s1, m⟩ := p
      rw [hct] at h
      simp only [Option.map_some', Option.some.injEq] at h
      subst h
      exact checkTimeouts_total_mono now nw nl s _ m hct
  | completeWord now nw =>
    simp only [applyOp, Option.some.injEq] at h
    subst h
    exact le_of_eq
      (wordCompletedWith_total (getDifficultySettings s.game_data.difficulty) now nw s).symm
  | expireWord now nw =>
    simp only [applyOp, Option.some.injEq] at h
    subst h
    exact le_of_eq (wordTimeExpired_total now nw s).symm
  | finishGame =>
    simp only [applyOp, Option.some.injEq] at h
    subst h
    exact le_refl _
  | practiceCheck now =>
    simp only [applyOp, Option.some.injEq] at h
    subst h
    exact le_of_eq (checkPracticeMorseInput_total now s).symm
  | practiceTimeouts now nl =>
    simp only [applyOp, Option.some.injEq] at h
    subst h
    exact le_of_eq (checkPracticeTimeouts_total now nl s).symm

/-- Witness for C10: a concrete clear on the mistyped-`"CAT"` state keeps
the total. -/
theorem total_errors_monotone_and_clear_preserves_total_witness :
    catState.game_data.total_errors
      ≤ (clearCurrentInput catState).game_data.total_errors :=
  total_errors_monotone_and_clear_preserves_total.1 catState SessionOp.clearInput
    (clearCurrentInput catState) rfl

/-- Witness for C9 on a concrete press–dash–release cycle of the configured
controller. -/
theorem actuator_value_stays_in_unit_range_witness :
    0 ≤ (actFinal actConfigState
        [ActCmd.keyPressed, ActCmd.applyDash, ActCmd.keyReleased]).current_value ∧
    (actFinal actConfigState
        [ActCmd.keyPressed, ActCmd.applyDash, ActCmd.keyReleased]).current_value ≤ 1 :=
  (actuator_value_stays_in_unit_range actConfigState
      [ActCmd.keyPressed, ActCmd.applyDash, ActCmd.keyReleased]
      (by norm_num [actConfigState]) (by norm_num [actConfigState])
      (by norm_num [actConfigState]) (by norm_num [actConfigState])
      (by norm_num [actConfigState]) (by norm_num [actConfigState])
      (by norm_num [actConfigState]) (by norm_num [actConfigState])).2

/-- Witness for C5 at a concrete playing state and duration `0.2 s`. -/
theorem onKeyRelease_dot_iff_below_midpoint_witness :
    (onKeyRelease 1 (2/10)
        { current_state := GameState.playing }).current_sequence = "." ∧
    (onKeyRelease 1 (4/10)
        { current_state := GameState.playing }).current_sequence = "-" := by
  have h := onKeyRelease_dot_iff_below_midpoint 1 (2/10)
    { current_state := GameState.playing } rfl (by norm_num [DEBOUNCE_TIME])
  exact ⟨h.2.1, h.2.2⟩

end MorseGame
